import Mathlib

set_option maxRecDepth 8000

/-!
# Verification of the stock-forecasting dashboard page

A shallow embedding of `pages/4_📶_Forecasting Models.py` (a Streamlit page)
together with proofs and refutations of the specified properties.

Conventions of the embedding:
* calendar days are natural numbers (day indices), prices are rationals;
* a pandas series of (Date, value) rows is a `List (Nat × ℚ)`;
* the Python `random.sample` draw is modelled by an arbitrary valid index
  draw (`ValidDraw`): a duplicate-free list of in-range positions of the
  required size — exactly the contract of sampling without replacement; the
  uniformity of the distribution lives in the external random source and is
  not modelled;
* behavior of third-party calls (`prophet.diagnostics.cross_validation`,
  `performance_metrics`, `make_future_dataframe`, pycaret's experiment API)
  whose code is not part of this repository is modelled from the spec, and
  each such definition is marked `Modelled from the spec:` in its doc
  comment;
* exceptions are values of an `Except` monad; Streamlit display calls are
  recorded as effects in a trace.
-/

/-- A Prophet parameter combination, one point of the search grid
(`param_grid` in the source). -/
structure Params where
  changepoint_prior_scale : ℚ
  seasonality_prior_scale : ℚ
  holidays_prior_scale : ℚ
  seasonality_mode : String
deriving DecidableEq, Repr

/-- `param_grid['changepoint_prior_scale'] = [0.001, 0.05, 0.08, 0.5]`. -/
def grid_changepoint_prior_scale : List ℚ := [0.001, 0.05, 0.08, 0.5]

/-- `param_grid['seasonality_prior_scale'] = [0.01, 1, 5, 10, 12]`. -/
def grid_seasonality_prior_scale : List ℚ := [0.01, 1, 5, 10, 12]

/-- `param_grid['holidays_prior_scale'] = [0.01, 0.1, 1, 10]`. -/
def grid_holidays_prior_scale : List ℚ := [0.01, 0.1, 1, 10]

/-- `param_grid['seasonality_mode'] = ['additive', 'multiplicative']`. -/
def grid_seasonality_mode : List String := ["additive", "multiplicative"]

/-- Innermost loop of `itertools.product(*param_grid.values())`: the
combinations with the three prior scales fixed. -/
def params_inner (c s h : ℚ) : List Params :=
  grid_seasonality_mode.map fun m => ⟨c, s, h, m⟩

/-- Combinations with `changepoint_prior_scale` and
`seasonality_prior_scale` fixed. -/
def params_level_h (c s : ℚ) : List Params :=
  grid_holidays_prior_scale.flatMap (params_inner c s)

/-- Combinations with `changepoint_prior_scale` fixed. -/
def params_level_s (c : ℚ) : List Params :=
  grid_seasonality_prior_scale.flatMap (params_level_h c)

/-- `all_params = [dict(zip(param_grid.keys(), v)) for v in
itertools.product(*param_grid.values())]`: the full Cartesian product of the
grid, in `itertools.product` order (rightmost key varies fastest). -/
def all_params : List Params :=
  grid_changepoint_prior_scale.flatMap params_level_s

lemma mem_params_inner {c s h : ℚ} {p : Params} (hp : p ∈ params_inner c s h) :
    p.holidays_prior_scale = h := by
  simp only [params_inner, List.mem_map] at hp
  obtain ⟨m, _, rfl⟩ := hp
  rfl

lemma mem_params_level_h {c s : ℚ} {p : Params} (hp : p ∈ params_level_h c s) :
    p.seasonality_prior_scale = s := by
  simp only [params_level_h, List.mem_flatMap] at hp
  obtain ⟨h, _, hmem⟩ := hp
  simp only [params_inner, List.mem_map] at hmem
  obtain ⟨m, _, rfl⟩ := hmem
  rfl

lemma mem_params_level_s {c : ℚ} {p : Params} (hp : p ∈ params_level_s c) :
    p.changepoint_prior_scale = c := by
  simp only [params_level_s, List.mem_flatMap] at hp
  obtain ⟨s, _, hmem⟩ := hp
  simp only [params_level_h, List.mem_flatMap] at hmem
  obtain ⟨h, _, hmem'⟩ := hmem
  simp only [params_inner, List.mem_map] at hmem'
  obtain ⟨m, _, rfl⟩ := hmem'
  rfl

lemma nodup_params_inner (c s h : ℚ) : (params_inner c s h).Nodup := by
  refine List.Nodup.map ?_ (by decide)
  intro a b hab
  exact congrArg Params.seasonality_mode hab

lemma nodup_params_level_h (c s : ℚ) : (params_level_h c s).Nodup := by
  rw [params_level_h, List.nodup_flatMap]
  refine ⟨fun h _ => nodup_params_inner c s h, ?_⟩
  have hnd : grid_holidays_prior_scale.Nodup := by
    norm_num [grid_holidays_prior_scale]
  refine hnd.imp ?_
  intro a b hab p hpa hpb
  exact hab ((mem_params_inner hpa) ▸ (mem_params_inner hpb))

lemma nodup_params_level_s (c : ℚ) : (params_level_s c).Nodup := by
  rw [params_level_s, List.nodup_flatMap]
  refine ⟨fun s _ => nodup_params_level_h c s, ?_⟩
  have hnd : grid_seasonality_prior_scale.Nodup := by
    norm_num [grid_seasonality_prior_scale]
  refine hnd.imp ?_
  intro a b hab p hpa hpb
  exact hab ((mem_params_level_h hpa) ▸ (mem_params_level_h hpb))

lemma all_params_nodup : all_params.Nodup := by
  rw [all_params, List.nodup_flatMap]
  refine ⟨fun c _ => nodup_params_level_s c, ?_⟩
  have hnd : grid_changepoint_prior_scale.Nodup := by
    norm_num [grid_changepoint_prior_scale]
  refine hnd.imp ?_
  intro a b hab p hpa hpb
  exact hab ((mem_params_level_s hpa) ▸ (mem_params_level_s hpb))

lemma all_params_length : all_params.length = 160 := by
  simp [all_params, params_level_s, params_level_h, params_inner,
    grid_changepoint_prior_scale, grid_seasonality_prior_scale,
    grid_holidays_prior_scale, grid_seasonality_mode]

/-- `random.sample(pop, k)` draws `k` distinct positions of `pop`; given the
drawn positions, the returned elements are the population entries at those
positions, in draw order. -/
def random_sample (pop : List Params) (idxs : List Nat) : List Params :=
  idxs.filterMap fun i => pop[i]?

/-- The contract of the index draw behind
`random.sample(all_params, min(10, len(all_params)))`: positions are
pairwise distinct, in range, and exactly `min 10 pop.length` many. -/
def ValidDraw (pop : List Params) (idxs : List Nat) : Prop :=
  idxs.Nodup ∧ (∀ i ∈ idxs, i < pop.length) ∧ idxs.length = min 10 pop.length

lemma length_random_sample (pop : List Params) (idxs : List Nat)
    (hb : ∀ i ∈ idxs, i < pop.length) :
    (random_sample pop idxs).length = idxs.length := by
  induction idxs with
  | nil => rfl
  | cons i is ih =>
    have hi : i < pop.length := hb i (List.mem_cons_self i is)
    have his : ∀ j ∈ is, j < pop.length := fun j hj => hb j (List.mem_cons_of_mem i hj)
    have ha : pop[i]? = some pop[i] := List.getElem?_eq_getElem hi
    have step : random_sample pop (i :: is) = pop[i] :: random_sample pop is := by
      simp [random_sample, List.filterMap_cons, ha]
    rw [step, List.length_cons, ih his, List.length_cons]

lemma nodup_random_sample (pop : List Params) (idxs : List Nat)
    (hpop : pop.Nodup) (hb : ∀ i ∈ idxs, i < pop.length) (hn : idxs.Nodup) :
    (random_sample pop idxs).Nodup := by
  induction idxs with
  | nil => exact List.nodup_nil
  | cons i is ih =>
    have hi : i < pop.length := hb i (List.mem_cons_self i is)
    have his : ∀ j ∈ is, j < pop.length := fun j hj => hb j (List.mem_cons_of_mem i hj)
    have hnis : is.Nodup := (List.nodup_cons.mp hn).2
    have hini : i ∉ is := (List.nodup_cons.mp hn).1
    have ha : pop[i]? = some pop[i] := List.getElem?_eq_getElem hi
    have step : random_sample pop (i :: is) = pop[i] :: random_sample pop is := by
      simp [random_sample, List.filterMap_cons, ha]
    rw [step, List.nodup_cons]
    refine ⟨?_, ih his hnis⟩
    intro hmem
    obtain ⟨j, hj, hja⟩ := List.mem_filterMap.mp hmem
    have hji : j = i := by
      have heq : pop[i]? = pop[j]? := by rw [ha, hja]
      exact (List.getElem?_inj hi hpop heq).symm
    exact hini (hji ▸ hj)

/-- Claim C1: for every draw respecting the `random.sample` contract, the
hyperparameter search evaluates exactly
`min(trial_bound, product_of_grid_sizes)` distinct parameter combinations —
with the code's trial bound of 10 and the 4·5·4·2 = 160-combination grid,
exactly 10 — drawn without replacement from the full Cartesian product of
the grid, with no duplicate combination in the sample. -/
theorem search_samples_min_10_distinct (idxs : List Nat)
    (h : ValidDraw all_params idxs) :
    (random_sample all_params idxs).length = min 10 all_params.length ∧
    all_params.length = 160 ∧
    (random_sample all_params idxs).length = 10 ∧
    (random_sample all_params idxs).Nodup ∧
    ∀ p ∈ random_sample all_params idxs, p ∈ all_params := by
  obtain ⟨hn, hb, hlen⟩ := h
  have hL : (random_sample all_params idxs).length = idxs.length :=
    length_random_sample all_params idxs hb
  refine ⟨by rw [hL, hlen], all_params_length, ?_, ?_, ?_⟩
  · rw [hL, hlen, all_params_length]
    decide
  · exact nodup_random_sample all_params idxs all_params_nodup hb hn
  · intro p hp
    obtain ⟨j, _, hj⟩ := List.mem_filterMap.mp hp
    exact List.getElem?_mem hj

/-- Witness for C1: the draw `[0,…,9]` is valid and yields 10 distinct
combinations. -/
theorem search_samples_min_10_distinct_witness :
    ValidDraw all_params [0, 1, 2, 3, 4, 5, 6, 7, 8, 9] ∧
    (random_sample all_params [0, 1, 2, 3, 4, 5, 6, 7, 8, 9]).length = 10 := by
  have hv : ValidDraw all_params [0, 1, 2, 3, 4, 5, 6, 7, 8, 9] := by
    refine ⟨by decide, ?_, by rw [all_params_length]; decide⟩
    intro i hi
    rw [all_params_length]
    fin_cases hi <;> omega
  exact ⟨hv, (search_samples_min_10_distinct _ hv).2.2.1⟩

/-- `np.argmin(mapes)`: the index of the first occurrence of the minimum
value (numpy returns the first occurrence on ties). The float mape scores
are represented by rationals. -/
def argmin (l : List ℚ) : Nat :=
  match l.min? with
  | none => 0
  | some m => l.indexOf m

/-- `best_params = selected_params[np.argmin(mapes)]`. -/
def best_params (selected : List Params) (mapes : List ℚ) : Option Params :=
  selected[argmin mapes]?

lemma getElem_ne_of_lt_indexOf {l : List ℚ} {a : ℚ} {j : Nat}
    (hjl : j < l.length) (hj : j < l.indexOf a) : l[j] ≠ a := by
  induction l generalizing j with
  | nil => simp at hjl
  | cons b t ih =>
    by_cases hba : b = a
    · rw [List.indexOf_cons_eq t hba] at hj
      omega
    · rw [List.indexOf_cons_ne t hba] at hj
      cases j with
      | zero => simpa using hba
      | succ k =>
        have hkl : k < t.length := by simpa using hjl
        have hk : k < t.indexOf a := by omega
        simpa using ih hkl hk

lemma min?_spec {l : List ℚ} {m : ℚ} (h : l.min? = some m) :
    m ∈ l ∧ ∀ x ∈ l, m ≤ x := by
  haveI : Std.Antisymm ((· : ℚ) ≤ ·) := ⟨@fun a b h1 h2 => le_antisymm h1 h2⟩
  have := (List.min?_eq_some_iff (fun a => le_refl a) (fun a b => min_choice a b)
    (fun a b c => le_min_iff)).mp h
  exact this

/-- Claim C2: after the search loop, the selected best combination's
recorded error score is ≤ the score of every other sampled combination, and
among combinations sharing the minimum score the one occurring first in
sample order is selected. -/
theorem best_params_minimizes (selected : List Params) (mapes : List ℚ)
    (hne : mapes ≠ []) (hlen : selected.length = mapes.length) :
    ∃ bp bs, best_params selected mapes = some bp ∧
      mapes[argmin mapes]? = some bs ∧
      (∀ s ∈ mapes, bs ≤ s) ∧
      (∀ j, j < argmin mapes → ∀ x, mapes[j]? = some x → bs < x) := by
  obtain ⟨m, hm⟩ : ∃ m, mapes.min? = some m := by
    cases hmin : mapes.min? with
    | none => exact absurd (List.min?_eq_none_iff.mp hmin) hne
    | some m => exact ⟨m, rfl⟩
  obtain ⟨hmem, hle⟩ := min?_spec hm
  have hargmin : argmin mapes = mapes.indexOf m := by
    rw [argmin, hm]
  have hidx : mapes.indexOf m < mapes.length := List.indexOf_lt_length.mpr hmem
  have hbs : mapes[argmin mapes]? = some m := by
    rw [hargmin]
    exact List.getElem?_indexOf hmem
  have hbp : ∃ bp, selected[argmin mapes]? = some bp := by
    have : argmin mapes < selected.length := by rw [hlen, hargmin]; exact hidx
    exact ⟨selected[argmin mapes], List.getElem?_eq_getElem this⟩
  obtain ⟨bp, hbp⟩ := hbp
  refine ⟨bp, m, hbp, hbs, hle, ?_⟩
  intro j hj x hx
  have hjl : j < mapes.length := by
    rw [hargmin] at hj
    omega
  have hxm : mapes[j] = x := by
    have := List.getElem?_eq_getElem hjl
    rw [this] at hx
    exact Option.some.inj hx
  have hne' : mapes[j] ≠ m := by
    rw [hargmin] at hj
    exact getElem_ne_of_lt_indexOf hjl hj
  have hlem : m ≤ mapes[j] := hle _ (mapes.getElem_mem hjl)
  rw [hxm] at hne' hlem
  exact lt_of_le_of_ne hlem (Ne.symm hne')

/-- Witness for C2: on scores `[3, 1, 2]` the second combination is
selected with score 1, the minimum. -/
theorem best_params_minimizes_witness :
    ([3, 1, 2] : List ℚ) ≠ [] ∧
    ∃ bp bs,
      best_params [⟨0.001, 0.01, 0.01, "additive"⟩, ⟨0.001, 0.01, 0.01, "multiplicative"⟩,
        ⟨0.001, 0.01, 0.1, "additive"⟩] [3, 1, 2] = some bp ∧
      ([3, 1, 2] : List ℚ)[argmin [3, 1, 2]]? = some bs ∧
      (∀ s ∈ ([3, 1, 2] : List ℚ), bs ≤ s) ∧
      (∀ j, j < argmin [3, 1, 2] → ∀ x, ([3, 1, 2] : List ℚ)[j]? = some x → bs < x) :=
  ⟨by simp,
    best_params_minimizes _ [3, 1, 2] (by simp) rfl⟩

/-- One rolling-origin fold: (training-window end, test-window start,
test-window end), in days from the start of the series. -/
structure Fold where
  trainEnd : Nat
  testStart : Nat
  testEnd : Nat
deriving DecidableEq, Repr

/-- Modelled from the spec: the fold generation of
`prophet.diagnostics.cross_validation` is external library code, not part of
this repository; §4.2 specifies it as rolling-origin evaluation — the first
test window starts immediately after `initial` days of history, each later
window start advances by `period` days, and generation stops once the test
window would exceed the series end. `fuel` bounds the recursion; `L + 1`
steps always suffice for a series of `L` days. -/
def cv_folds_from : Nat → Nat → Nat → Nat → Nat → List Fold
  | 0, _, _, _, _ => []
  | fuel + 1, L, period, horizon, origin =>
    if 0 < period ∧ origin + horizon ≤ L then
      ⟨origin, origin + 1, origin + horizon⟩ ::
        cv_folds_from fuel L period horizon (origin + period)
    else []

/-- Modelled from the spec (§4.2): the fold list of rolling-origin
cross-validation over a series of `L` days with the given
`initial`/`period`/`horizon` durations. -/
def cv_folds (L initial period horizon : Nat) : List Fold :=
  cv_folds_from (L + 1) L period horizon initial

lemma cv_folds_from_nil (fuel L period horizon origin : Nat)
    (h : ¬(0 < period ∧ origin + horizon ≤ L)) :
    cv_folds_from fuel L period horizon origin = [] := by
  cases fuel with
  | zero => rfl
  | succ n => simp only [cv_folds_from, if_neg h]

lemma cv_folds_from_length (L period horizon : Nat) (hp : 0 < period) :
    ∀ fuel origin, L + 1 ≤ fuel + origin → origin + horizon ≤ L →
      (cv_folds_from fuel L period horizon origin).length
        = (L - origin - horizon) / period + 1 := by
  intro fuel
  induction fuel with
  | zero =>
    intro origin h1 h2
    omega
  | succ n ih =>
    intro origin h1 h2
    simp only [cv_folds_from, if_pos (And.intro hp h2), List.length_cons]
    by_cases hnext : origin + period + horizon ≤ L
    · rw [ih (origin + period) (by omega) hnext]
      have hpa : period ≤ L - origin - horizon := by omega
      rw [Nat.div_eq_sub_div hp hpa]
      have heq : L - (origin + period) - horizon = L - origin - horizon - period := by
        omega
      rw [heq]
    · rw [cv_folds_from_nil n L period horizon (origin + period) (by omega)]
      rw [Nat.div_eq_of_lt (by omega : L - origin - horizon < period)]
      rfl

/-- Claim C3: for every series length and valid (initial, period, horizon)
with `initial + horizon ≤ L`, cross-validation produces at least one fold
and the fold count is `(L - initial - horizon) / period + 1`; in particular
with `initial=30, period=10, horizon=7` on a 60-day series there are
exactly 3 folds with origins 30, 40, 50 and test windows ending at 37, 47,
57. -/
theorem cross_validation_fold_count :
    (∀ L initial period horizon, 0 < period → initial + horizon ≤ L →
      0 < (cv_folds L initial period horizon).length ∧
      (cv_folds L initial period horizon).length
        = (L - initial - horizon) / period + 1) ∧
    cv_folds 60 30 10 7 = [⟨30, 31, 37⟩, ⟨40, 41, 47⟩, ⟨50, 51, 57⟩] := by
  constructor
  · intro L i p h hp hle
    have hcount := cv_folds_from_length L p h hp (L + 1) i (by omega) hle
    rw [cv_folds, hcount]
    exact ⟨Nat.succ_pos _, rfl⟩
  · decide

/-- Witness for C3: instantiating the fold-count law at
`L=60, initial=30, period=10, horizon=7` gives a positive count equal to
`floor(23/10) + 1 = 3`. -/
theorem cross_validation_fold_count_witness :
    0 < (cv_folds 60 30 10 7).length ∧
    (cv_folds 60 30 10 7).length = (60 - 30 - 7) / 10 + 1 :=
  cross_validation_fold_count.1 60 30 10 7 (by decide) (by decide)

/-- A Python exception value, as far as the page's control flow can tell
them apart. `insufficientHistory` carries the minimum series length the
fold geometry requires. -/
inductive PyException where
  | insufficientHistory (minRequired : Nat)
  | valueError (msg : String)
  | keyError (msg : String)
deriving DecidableEq, Repr

/-- Observable actions of the page script: Streamlit display calls and
invocations of the forecasting pipeline. `fitProphet` records the series
the model is fitted on. -/
inductive Effect where
  | sidebarError (msg : String)
  | warningMsg (msg : String)
  | stError (msg : String)
  | loadDataCalled
  | fitProphet (p : Params) (series : List (Nat × ℚ))
  | crossValidationCalled (p : Params)
  | automlSetup (series : List (Nat × ℚ))
  | forecastProduced
deriving DecidableEq, Repr

/-- Modelled from the spec: `prophet.diagnostics.cross_validation` is
external library code; per §4.1 the search must "fail fast with a
descriptive error rather than silently producing an empty fold set", and
§7(b) specifies an InsufficientHistory error carrying the minimum required
length (`initial + horizon` for one fold). -/
def cross_validation_run (L initial period horizon : Nat) :
    Except PyException (List Fold) :=
  match cv_folds L initial period horizon with
  | [] => Except.error (PyException.insufficientHistory (initial + horizon))
  | f :: fs => Except.ok (f :: fs)

/-- Modelled from the spec (§4.2): `performance_metrics(df_cv,
rolling_window=1)` aggregates with a rolling window of size 1, reporting
only the most recent fold's metric; `df_p['mape'].values[0]` then reads
that single value. The per-fold mape values are supplied by an abstract
metric function, since the numeric error computation happens inside the
external library. -/
def performance_metrics_rw1 (foldMapes : List ℚ) : Option ℚ :=
  foldMapes.getLast?

/-- The tuning loop of the Prophet branch (`for params in selected_params:`):
for each sampled combination, first `Prophet(**params).fit(df)` runs, then
`cross_validation`, then `performance_metrics(..., rolling_window=1)`, and
`df_p['mape'].values[0]` is appended to `mapes`. An exception from
`cross_validation` aborts the loop. -/
def search_loop (L initial period horizon : Nat) (metric : Params → Fold → ℚ)
    (df : List (Nat × ℚ)) : List Params → List Effect × Except PyException (List ℚ)
  | [] => ([], Except.ok [])
  | prm :: rest =>
    match cross_validation_run L initial period horizon with
    | Except.error e => ([Effect.fitProphet prm df], Except.error e)
    | Except.ok folds =>
      let mape := (performance_metrics_rw1 (folds.map (metric prm))).getD 0
      let r := search_loop L initial period horizon metric df rest
      (Effect.fitProphet prm df :: Effect.crossValidationCalled prm :: r.1,
        r.2.map fun ms => mape :: ms)

lemma cross_validation_run_ok (L initial period horizon : Nat)
    (h : cv_folds L initial period horizon ≠ []) :
    cross_validation_run L initial period horizon
      = Except.ok (cv_folds L initial period horizon) := by
  rw [cross_validation_run]
  cases hc : cv_folds L initial period horizon with
  | nil => exact absurd hc h
  | cons f fs => rfl

/-- Claim C7: for every sampled parameter combination, the error score
recorded during the search equals only the most recent fold's error metric
(rolling window of size 1), not an average across all folds. -/
theorem recorded_score_is_latest_fold (L initial period horizon : Nat)
    (metric : Params → Fold → ℚ) (df : List (Nat × ℚ)) (selected : List Params)
    (hfolds : cv_folds L initial period horizon ≠ []) :
    (∃ ms, (search_loop L initial period horizon metric df selected).2
        = Except.ok ms ∧
      ms.length = selected.length ∧
      ∀ k, (hk : k < selected.length) → ms[k]? =
        some (metric selected[k]
          ((cv_folds L initial period horizon).getLast hfolds))) ∧
    performance_metrics_rw1 [2, 4] = some 4 ∧
    ((2 : ℚ) + 4) / 2 = 3 ∧ (4 : ℚ) ≠ 3 := by
  refine ⟨?_, by rfl, by norm_num, by norm_num⟩
  induction selected with
  | nil => exact ⟨[], rfl, rfl, fun k hk => absurd hk (by simp)⟩
  | cons prm rest ih =>
    obtain ⟨ms, hms, hlen, hidx⟩ := ih
    have hrun := cross_validation_run_ok L initial period horizon hfolds
    have hlast : performance_metrics_rw1
        ((cv_folds L initial period horizon).map (metric prm))
        = some (metric prm ((cv_folds L initial period horizon).getLast hfolds)) := by
      rw [performance_metrics_rw1, List.getLast?_map,
        List.getLast?_eq_getLast _ hfolds]
      rfl
    refine ⟨metric prm ((cv_folds L initial period horizon).getLast hfolds) :: ms, ?_, ?_, ?_⟩
    · simp only [search_loop, hrun, hms, hlast, Option.getD_some]
      rfl
    · simp [hlen]
    · intro k hk
      cases k with
      | zero => simp
      | succ j =>
        have hj : j < rest.length := by simpa using hk
        simpa using hidx j hj

/-- Witness for C7: with the 3 folds of a 60-day series and the metric
reading off a fold's test-window end, the recorded scores are those of the
last fold (test window ending at day 57). -/
theorem recorded_score_is_latest_fold_witness :
    cv_folds 60 30 10 7 ≠ [] ∧
    ((∃ ms, (search_loop 60 30 10 7 (fun _ f => (f.testEnd : ℚ)) []
        [⟨1, 1, 1, "additive"⟩]).2 = Except.ok ms ∧
      ms.length = 1 ∧
      ∀ k, (hk : k < ([⟨1, 1, 1, "additive"⟩] : List Params).length) →
        ms[k]? = some ((fun (_ : Params) (f : Fold) => (f.testEnd : ℚ))
          ([⟨(1 : ℚ), 1, 1, "additive"⟩] : List Params)[k]
          ((cv_folds 60 30 10 7).getLast (by decide)))) ∧
      performance_metrics_rw1 [2, 4] = some 4 ∧
      ((2 : ℚ) + 4) / 2 = 3 ∧ (4 : ℚ) ≠ 3) :=
  ⟨by decide, recorded_score_is_latest_fold 60 30 10 7
    (fun _ f => (f.testEnd : ℚ)) [] [⟨1, 1, 1, "additive"⟩] (by decide)⟩

/-- Amended C6: on a series too short for even one fold, the search does
not fail before fitting — the first sampled combination's model is fitted,
and only then does the cross-validation call raise the insufficient-history
error, aborting the loop. -/
theorem short_series_error_only_after_first_fit (L initial period horizon : Nat)
    (metric : Params → Fold → ℚ) (df : List (Nat × ℚ)) (prm : Params)
    (rest : List Params) (hshort : cv_folds L initial period horizon = []) :
    search_loop L initial period horizon metric df (prm :: rest)
      = ([Effect.fitProphet prm df],
         Except.error (PyException.insufficientHistory (initial + horizon))) := by
  simp only [search_loop, cross_validation_run, hshort]

/-- Counterexample to C6 as stated: on a 10-day series with
`initial=30, period=10, horizon=7`, the trace of the search contains a model
fit — fitting begins before the insufficient-history failure surfaces, so
the search does not fail fast before any model fitting. -/
theorem short_series_fit_before_error :
    Effect.fitProphet ⟨1, 1, 1, "additive"⟩ [(0, 5)] ∈
      (search_loop 10 30 10 7 (fun _ _ => 0) [(0, 5)] [⟨1, 1, 1, "additive"⟩]).1 ∧
    (search_loop 10 30 10 7 (fun _ _ => 0) [(0, 5)] [⟨1, 1, 1, "additive"⟩]).2
      = Except.error (PyException.insufficientHistory 37) := by
  constructor
  · rw [short_series_error_only_after_first_fit 10 30 10 7 _ _ _ _ (by decide)]
    exact List.mem_singleton.mpr rfl
  · rw [short_series_error_only_after_first_fit 10 30 10 7 _ _ _ _ (by decide)]

/-- Witness for the amended C6 at a concrete short series. -/
theorem short_series_error_only_after_first_fit_witness :
    search_loop 10 30 10 7 (fun _ _ => 0) [(0, 5)] [⟨1, 1, 1, "multiplicative"⟩]
      = ([Effect.fitProphet ⟨1, 1, 1, "multiplicative"⟩ [(0, 5)]],
         Except.error (PyException.insufficientHistory 37)) :=
  short_series_error_only_after_first_fit 10 30 10 7 _ _ _ _ (by decide)

/-- One row of `forecast[['ds', 'yhat', 'yhat_lower', 'yhat_upper']]`. -/
structure ForecastRow where
  ds : Nat
  yhat : ℚ
  yhat_lower : ℚ
  yhat_upper : ℚ
deriving DecidableEq, Repr

/-- Modelled from the spec (§4.3): `make_future_dataframe(periods=h)` is
external library code; the spec's trainer contract produces forecasts for
`h` future periods "extending from the day after the last observed date".
The future dates, one per day. -/
def make_future_dataframe (lastDate : Nat) (periods : Nat) : List Nat :=
  (List.range periods).map fun i => lastDate + 1 + i

/-- Modelled from the spec (§4.3): `auto_model.predict(future)` followed by
the column selection — an ordered sequence of
(date, forecast, lower bound, upper bound) tuples over the future dates;
the numeric values come from the fitted model, abstracted as a function of
the date. -/
def forecast_rows (model : Nat → ℚ × ℚ × ℚ) (lastDate periods : Nat) :
    List ForecastRow :=
  (make_future_dataframe lastDate periods).map fun d =>
    ⟨d, (model d).1, (model d).2.1, (model d).2.2⟩

/-- Claim C5: for every fitted final model and requested horizon `h ≥ 1`,
the forecast output is an ordered sequence of exactly `h`
(date, forecast, lower, upper) tuples with strictly increasing dates whose
first date is exactly one day after the last observed date. -/
theorem forecast_output_shape (model : Nat → ℚ × ℚ × ℚ) (lastDate h : Nat)
    (hh : 1 ≤ h) :
    (forecast_rows model lastDate h).length = h ∧
    ((forecast_rows model lastDate h).map ForecastRow.ds).Pairwise (· < ·) ∧
    ((forecast_rows model lastDate h).map ForecastRow.ds).head?
      = some (lastDate + 1) := by
  refine ⟨?_, ?_, ?_⟩
  · simp [forecast_rows, make_future_dataframe]
  · rw [forecast_rows, make_future_dataframe, List.map_map, List.map_map]
    rw [List.pairwise_map]
    exact (List.pairwise_lt_range h).imp
      (fun {a b} hij => by simp only [Function.comp_apply]; omega)
  · cases h with
    | zero => omega
    | succ k =>
      rw [forecast_rows, make_future_dataframe, List.map_map, List.map_map,
        List.range_succ_eq_map]
      rfl

/-- Witness for C5: horizon 3 after last observed day 9 gives rows on days
10, 11, 12. -/
theorem forecast_output_shape_witness :
    (forecast_rows (fun _ => (1, 0, 2)) 9 3).length = 3 ∧
    ((forecast_rows (fun _ => (1, 0, 2)) 9 3).map ForecastRow.ds).Pairwise (· < ·) ∧
    ((forecast_rows (fun _ => (1, 0, 2)) 9 3).map ForecastRow.ds).head? = some 10 :=
  forecast_output_shape (fun _ => (1, 0, 2)) 9 3 (by decide)

/-- `load_data`: wraps `yf.download(symbol, start_date, end_date)` in
try/except — on success it returns the data, on any exception it calls
`st.error(...)` and returns `None`. The download outcome (including any
exception the provider raises) is the argument; the result is in the
exception monad so that propagation, if any, would be visible. -/
def load_data (download : Except PyException (List (Nat × ℚ))) :
    Except PyException (Option (List (Nat × ℚ)) × List Effect) :=
  match download with
  | Except.ok d => Except.ok (some d, [])
  | Except.error _ => Except.ok (none, [Effect.stError "Error loading data"])

/-- Claim C10: `load_data` is total at its interface — it either returns
the downloaded series or returns `None` after displaying an error message,
and no provider exception ever propagates to the caller. -/
theorem load_data_total (download : Except PyException (List (Nat × ℚ))) :
    ((∃ d, download = Except.ok d ∧ load_data download = Except.ok (some d, [])) ∨
      (∃ e, download = Except.error e ∧
        load_data download
          = Except.ok (none, [Effect.stError "Error loading data"]))) ∧
    ∀ e, load_data download ≠ Except.error e := by
  cases download with
  | ok d =>
    exact ⟨Or.inl ⟨d, rfl, rfl⟩, fun e h => by simp [load_data] at h⟩
  | error e =>
    exact ⟨Or.inr ⟨e, rfl, rfl⟩, fun e' h => by simp [load_data] at h⟩

/-- A candidate model family in the pycaret comparison, with its
cross-validated MAPE score. -/
structure Candidate where
  name : String
  mape : ℚ
deriving DecidableEq, Repr

/-- Modelled from the spec (§4.4): pycaret's
`compare_models(sort='MAPE', turbo=False, n_select=3)` is external library
code; the spec's contract ranks the candidate panel by cross-validated
error ascending and selects the top `n_select`. -/
def compare_models (panel : List Candidate) (n_select : Nat) : List Candidate :=
  (panel.mergeSort fun a b => a.mape ≤ b.mape).take n_select

/-- An ensemble: its member models plus the blending rule
(`blend_models(..., method='gmean')` combines member forecasts by
geometric mean). -/
structure Ensemble where
  members : List Candidate
  blend_method : String
deriving DecidableEq, Repr

/-- `tune_and_blend_models`: `compare_models` on MAPE with `n_select=3`,
then `tune_model` on each selected candidate (tuning itself happens inside
the external library, abstracted as a function), then
`blend_models(best_pipelines_tuned, method="gmean")`. -/
def tune_and_blend_models (panel : List Candidate) (tune : Candidate → Candidate) :
    Ensemble :=
  let best_pipelines := compare_models panel 3
  let best_pipelines_tuned := best_pipelines.map tune
  ⟨best_pipelines_tuned, "gmean"⟩

/-- Claim C8: the model-selection strategy ranks the candidate panel by
cross-validated MAPE, selects exactly the top 3, independently tunes each
of the 3 selected candidates, and only then combines the tuned candidates
into one ensemble with the geometric-mean blending rule: the ensemble's
members are the tuned images of the 3 lowest-MAPE candidates (every
selected candidate scores ≤ every unselected one) and its rule is
`gmean`. -/
theorem automl_top3_tuned_gmean (panel : List Candidate)
    (tune : Candidate → Candidate)
    (hlen : 3 ≤ panel.length) :
    ∃ ranked : List Candidate, ranked.Perm panel ∧
      ranked.Pairwise (fun a b => a.mape ≤ b.mape) ∧
      (tune_and_blend_models panel tune).members = (ranked.take 3).map tune ∧
      ((tune_and_blend_models panel tune).members).length = 3 ∧
      (tune_and_blend_models panel tune).blend_method = "gmean" ∧
      ∀ x ∈ ranked.take 3, ∀ y ∈ ranked.drop 3, x.mape ≤ y.mape := by
  refine ⟨panel.mergeSort fun a b => a.mape ≤ b.mape, List.mergeSort_perm _ _, ?_, rfl, ?_, rfl, ?_⟩
  · have hs := @List.sorted_mergeSort Candidate
      (fun a b : Candidate => decide (a.mape ≤ b.mape))
      (fun a b c hab hbc => by
        simp only [decide_eq_true_eq] at *
        exact le_trans hab hbc)
      (fun a b => by
        simp only [Bool.or_eq_true, decide_eq_true_eq]
        exact le_total a.mape b.mape)
      panel
    exact hs.imp (by simp only [decide_eq_true_eq]; exact fun h => h)
  · have hperm := List.mergeSort_perm panel (fun a b : Candidate => decide (a.mape ≤ b.mape))
    have hL : (panel.mergeSort fun a b => a.mape ≤ b.mape).length = panel.length :=
      hperm.length_eq
    simp only [tune_and_blend_models, compare_models, List.length_map,
      List.length_take, hL]
    omega
  · intro x hx y hy
    have hs := @List.sorted_mergeSort Candidate
      (fun a b : Candidate => decide (a.mape ≤ b.mape))
      (fun a b c hab hbc => by
        simp only [decide_eq_true_eq] at *
        exact le_trans hab hbc)
      (fun a b => by
        simp only [Bool.or_eq_true, decide_eq_true_eq]
        exact le_total a.mape b.mape)
      panel
    have := hs.rel_of_mem_take_of_mem_drop hx hy
    simpa using this

/-- Witness for C8 on a concrete 4-candidate panel. -/
theorem automl_top3_tuned_gmean_witness :
    (3 : Nat) ≤ ([⟨"arima", 4⟩, ⟨"ets", 2⟩, ⟨"naive", 3⟩, ⟨"theta", 1⟩] : List Candidate).length ∧
    ∃ ranked : List Candidate,
      ranked.Perm [⟨"arima", 4⟩, ⟨"ets", 2⟩, ⟨"naive", 3⟩, (⟨"theta", 1⟩ : Candidate)] ∧
      ranked.Pairwise (fun a b => a.mape ≤ b.mape) ∧
      (tune_and_blend_models [⟨"arima", 4⟩, ⟨"ets", 2⟩, ⟨"naive", 3⟩, ⟨"theta", 1⟩] id).members
        = (ranked.take 3).map id ∧
      ((tune_and_blend_models [⟨"arima", 4⟩, ⟨"ets", 2⟩, ⟨"naive", 3⟩, ⟨"theta", 1⟩] id).members).length = 3 ∧
      (tune_and_blend_models [⟨"arima", 4⟩, ⟨"ets", 2⟩, ⟨"naive", 3⟩, ⟨"theta", 1⟩] id).blend_method = "gmean" ∧
      ∀ x ∈ ranked.take 3, ∀ y ∈ ranked.drop 3, x.mape ≤ y.mape :=
  ⟨by decide,
    automl_top3_tuned_gmean [⟨"arima", 4⟩, ⟨"ets", 2⟩, ⟨"naive", 3⟩, ⟨"theta", 1⟩] id (by decide)⟩

/-- `df.groupby('Date').sum()`: one row per distinct date, dates ascending,
values of equal dates summed. -/
def groupby_sum (s : List (Nat × ℚ)) : List (Nat × ℚ) :=
  (((s.map Prod.fst).mergeSort fun a b => a ≤ b).dedup).map fun d =>
    (d, ((s.filter fun x => x.1 = d).map Prod.snd).sum)

/-- Forward-fill lookup: the value of the last row of `g` with date ≤ `d`
(`dflt` when there is none — unreachable for `d` at or after the first
date). -/
def ffill_at (g : List (Nat × ℚ)) (dflt : ℚ) (d : Nat) : ℚ :=
  (((g.filter fun x => x.1 ≤ d).getLast?).map Prod.snd).getD dflt

/-- `.asfreq(freq='D').ffill()`: reindex to every calendar day from the
first to the last date, carrying the last known value forward over the
introduced gaps. -/
def asfreq_D_ffill (g : List (Nat × ℚ)) : List (Nat × ℚ) :=
  match g.head? with
  | none => []
  | some (d0, v0) =>
    let dEnd := ((g.getLast?).map Prod.fst).getD d0
    (List.range (dEnd + 1 - d0)).map fun i => (d0 + i, ffill_at g v0 (d0 + i))

/-- `preprocess_data` (called only in the AutoML branch of the source):
`groupby('Date').sum()` then `asfreq(freq='D').ffill()`. -/
def preprocess_data (s : List (Nat × ℚ)) : List (Nat × ℚ) :=
  asfreq_D_ffill (groupby_sum s)

/-- The spec's canonical-form invariant (§3): strictly increasing
timestamps at a fixed daily step. -/
def DailyStep (s : List (Nat × ℚ)) : Prop :=
  s.Chain' fun a b => b.1 = a.1 + 1

lemma chain'_daily_map_range (n d0 : Nat) (g : Nat → ℚ) :
    List.Chain' (fun a b : Nat × ℚ => b.1 = a.1 + 1)
      ((List.range n).map fun i => (d0 + i, g i)) := by
  rw [List.chain'_map]
  cases n with
  | zero => simp
  | succ m =>
    rw [List.chain'_range_succ]
    intro i hi
    show d0 + (i + 1) = d0 + i + 1
    omega

lemma preprocess_data_daily_step (s : List (Nat × ℚ)) :
    DailyStep (preprocess_data s) := by
  rw [preprocess_data, DailyStep]
  cases hg : (groupby_sum s).head? with
  | none => simp [asfreq_D_ffill, hg]
  | some p =>
    obtain ⟨d0, v0⟩ := p
    simp only [asfreq_D_ffill, hg]
    exact chain'_daily_map_range _ d0 _

/-- The two values of the `forecast_models` selectbox. -/
inductive Strategy where
  | prophetChoice
  | automlChoice
deriving DecidableEq, Repr

/-- The page's external inputs for one run: the sidebar widget values, the
provider download outcome, the positions drawn by `random.sample`, and the
per-fold error metric computed inside the external library (abstract). -/
structure PageInput where
  start_date : Int
  end_date : Int
  strategy : Strategy
  download : Except PyException (List (Nat × ℚ))
  draw : List Nat
  initial_days : Nat
  period_days : Nat
  horizon_days : Nat
  metric : Params → Fold → ℚ

/-- The Prophet branch: sample the grid, run the tuning loop on the series
exactly as loaded (renaming `Date`/`Adj Close` to `ds`/`y` does not change
the (date, value) content — there is no preprocessing here), then either
forecast or fall into the page-level `except (ValueError, KeyError)`
handler, which writes "Please select a Company Name". -/
def prophet_branch (inp : PageInput) (df : List (Nat × ℚ)) : List Effect :=
  let sel := random_sample all_params inp.draw
  let r := search_loop df.length inp.initial_days inp.period_days inp.horizon_days
    inp.metric df sel
  r.1 ++
    match r.2 with
    | Except.error _ => [Effect.stError "Please select a Company Name"]
    | Except.ok _ => [Effect.forecastProduced]

/-- The AutoML branch: `df = preprocess_data(df)`, then
`tune_and_blend_models(df)` and forecasting. -/
def automl_branch (df : List (Nat × ℚ)) : List Effect :=
  [Effect.automlSetup (preprocess_data df), Effect.forecastProduced]

/-- The top level of the page script: the date-order check (which only
displays a sidebar error and continues), the `load_data` call, the
empty-data warning, and the selected strategy's branch. When the download
failed (`df` is `None`) the Prophet branch's first fit raises immediately
and the page-level handler reports the generic message; the AutoML branch
is guarded by `if df is not None` and does nothing. -/
def page_run (inp : PageInput) : List Effect :=
  (if inp.start_date > inp.end_date then
    [Effect.sidebarError "The end date must fall after the start date"]
  else []) ++
  Effect.loadDataCalled ::
  match load_data inp.download with
  | Except.error _ => []
  | Except.ok (odf, effs) =>
    effs ++
    match odf with
    | none =>
      Effect.warningMsg "No data available for the selected stock and date range." ::
      (match inp.strategy with
       | Strategy.prophetChoice => [Effect.stError "Please select a Company Name"]
       | Strategy.automlChoice => [])
    | some df =>
      (if df.isEmpty then
        [Effect.warningMsg "No data available for the selected stock and date range."]
      else []) ++
      match inp.strategy with
      | Strategy.prophetChoice => prophet_branch inp df
      | Strategy.automlChoice => automl_branch df

lemma page_run_eq_of_ok (inp : PageInput) (df : List (Nat × ℚ))
    (hdl : inp.download = Except.ok df) :
    page_run inp =
      (if inp.start_date > inp.end_date then
        [Effect.sidebarError "The end date must fall after the start date"]
      else []) ++
      Effect.loadDataCalled ::
      ((if df.isEmpty then
        [Effect.warningMsg "No data available for the selected stock and date range."]
      else []) ++
      match inp.strategy with
      | Strategy.prophetChoice => prophet_branch inp df
      | Strategy.automlChoice => automl_branch df) := by
  rw [page_run, hdl]
  rfl

lemma mem_ite_singleton {c : Prop} [Decidable c] {a x : Effect}
    (h : a ∈ if c then [x] else []) : a = x := by
  by_cases hc : c
  · rw [if_pos hc] at h
    exact List.mem_singleton.mp h
  · rw [if_neg hc] at h
    simp at h

lemma search_loop_fit_series (L initial period horizon : Nat)
    (metric : Params → Fold → ℚ) (df : List (Nat × ℚ)) :
    ∀ sel prm s, Effect.fitProphet prm s ∈
      (search_loop L initial period horizon metric df sel).1 → s = df := by
  intro sel
  induction sel with
  | nil => intro prm s h; simp [search_loop] at h
  | cons q rest ih =>
    intro prm s h
    rw [search_loop] at h
    cases hrun : cross_validation_run L initial period horizon with
    | error e =>
      rw [hrun] at h
      simp only [List.mem_singleton] at h
      cases h
      rfl
    | ok folds =>
      rw [hrun] at h
      simp only [List.mem_cons] at h
      rcases h with h | h | h
      · cases h; rfl
      · cases h
      · exact ih prm s h

/-- Amended C4: when the start date is after the end date, the page only
displays a sidebar error message — no exception is raised at the input
boundary, execution continues, and `load_data` is still invoked. -/
theorem date_error_does_not_halt (inp : PageInput)
    (hdate : inp.start_date > inp.end_date) :
    Effect.sidebarError "The end date must fall after the start date" ∈ page_run inp ∧
    Effect.loadDataCalled ∈ page_run inp := by
  constructor
  · rw [page_run, if_pos hdate]
    exact List.mem_append_left _ (List.mem_singleton.mpr rfl)
  · rw [page_run, if_pos hdate]
    exact List.mem_append_right _ (List.mem_cons_self _ _)

/-- Witness for the amended C4 at a concrete input with start 5 > end 3. -/
theorem date_error_does_not_halt_witness :
    Effect.sidebarError "The end date must fall after the start date" ∈
      page_run ⟨5, 3, Strategy.prophetChoice, Except.ok [(0, 1)],
        [0, 1, 2, 3, 4, 5, 6, 7, 8, 9], 30, 10, 7, fun _ _ => 0⟩ ∧
    Effect.loadDataCalled ∈
      page_run ⟨5, 3, Strategy.prophetChoice, Except.ok [(0, 1)],
        [0, 1, 2, 3, 4, 5, 6, 7, 8, 9], 30, 10, 7, fun _ _ => 0⟩ :=
  date_error_does_not_halt _ (by decide)

/-- Counterexample to C4 as stated: with start date 5 after end date 3 the
forecast pipeline is still invoked — the trace shows the sidebar error
message followed by the `load_data` call and a Prophet model fit; no
ConfigurationError stops the request. -/
theorem date_error_pipeline_still_runs :
    (5 : Int) > 3 ∧
    Effect.sidebarError "The end date must fall after the start date" ∈
      page_run ⟨5, 3, Strategy.prophetChoice, Except.ok [(0, 1)],
        [0, 1, 2, 3, 4, 5, 6, 7, 8, 9], 30, 10, 7, fun _ _ => 0⟩ ∧
    Effect.fitProphet ⟨0.001, 0.01, 0.01, "additive"⟩ [(0, 1)] ∈
      page_run ⟨5, 3, Strategy.prophetChoice, Except.ok [(0, 1)],
        [0, 1, 2, 3, 4, 5, 6, 7, 8, 9], 30, 10, 7, fun _ _ => 0⟩ := by
  have htrace : page_run ⟨5, 3, Strategy.prophetChoice, Except.ok [(0, 1)],
      [0, 1, 2, 3, 4, 5, 6, 7, 8, 9], 30, 10, 7, fun _ _ => 0⟩ =
    [Effect.sidebarError "The end date must fall after the start date",
     Effect.loadDataCalled,
     Effect.fitProphet ⟨0.001, 0.01, 0.01, "additive"⟩ [(0, 1)],
     Effect.stError "Please select a Company Name"] := rfl
  refine ⟨by decide, ?_, ?_⟩
  · rw [htrace]
    exact List.mem_cons_self _ _
  · rw [htrace]
    exact List.mem_cons_of_mem _ (List.mem_cons_of_mem _ (List.mem_cons_self _ _))

/-- Amended C9: only the AutoML strategy preprocesses — the series the
AutoML branch consumes has passed through `preprocess_data` and satisfies
the fixed-daily-step invariant, while the Prophet strategy fits every model
on the series exactly as loaded, with no preprocessing. -/
theorem preprocessing_only_in_automl (inp : PageInput) (df : List (Nat × ℚ))
    (hdl : inp.download = Except.ok df) :
    (inp.strategy = Strategy.automlChoice →
      Effect.automlSetup (preprocess_data df) ∈ page_run inp ∧
      DailyStep (preprocess_data df)) ∧
    (inp.strategy = Strategy.prophetChoice →
      ∀ p s, Effect.fitProphet p s ∈ page_run inp → s = df) := by
  constructor
  · intro hstrat
    refine ⟨?_, preprocess_data_daily_step df⟩
    rw [page_run_eq_of_ok inp df hdl, hstrat]
    refine List.mem_append_right _ (List.mem_cons_of_mem _ ?_)
    refine List.mem_append_right _ ?_
    exact List.mem_cons_self _ _
  · intro hstrat p s hmem
    rw [page_run_eq_of_ok inp df hdl, hstrat] at hmem
    rcases List.mem_append.mp hmem with h1 | h2
    · cases mem_ite_singleton h1
    · rcases List.mem_cons.mp h2 with h3 | h4
      · cases h3
      · rcases List.mem_append.mp h4 with h5 | h6
        · cases mem_ite_singleton h5
        · rw [prophet_branch] at h6
          rcases List.mem_append.mp h6 with h7 | h8
          · exact search_loop_fit_series _ _ _ _ _ _ _ p s h7
          · cases hres : (search_loop df.length inp.initial_days inp.period_days
              inp.horizon_days inp.metric df (random_sample all_params inp.draw)).2 with
            | error e =>
              rw [hres] at h8
              cases List.mem_singleton.mp h8
            | ok ms =>
              rw [hres] at h8
              cases List.mem_singleton.mp h8

/-- Witness for the amended C9: a concrete AutoML request on a gapped
3-row series passes the preprocessed, daily-stepped series to the
experiment setup. -/
theorem preprocessing_only_in_automl_witness :
    Effect.automlSetup (preprocess_data [(0, 10), (1, 11), (4, 12)]) ∈
      page_run ⟨1, 5, Strategy.automlChoice, Except.ok [(0, 10), (1, 11), (4, 12)],
        [0, 1, 2, 3, 4, 5, 6, 7, 8, 9], 30, 10, 7, fun _ _ => 0⟩ ∧
    DailyStep (preprocess_data [(0, 10), (1, 11), (4, 12)]) :=
  (preprocessing_only_in_automl
    ⟨1, 5, Strategy.automlChoice, Except.ok [(0, 10), (1, 11), (4, 12)],
      [0, 1, 2, 3, 4, 5, 6, 7, 8, 9], 30, 10, 7, fun _ _ => 0⟩
    [(0, 10), (1, 11), (4, 12)] rfl).1 rfl

/-- Counterexample to C9 as stated: under the Prophet strategy the series
consumed by model fitting has NOT passed through the Series Preprocessor —
the fitted series `[(0,10),(1,11),(4,12)]` still has a gap (day 2 and 3
missing), violating the canonical fixed-daily-step form. -/
theorem prophet_fits_unpreprocessed_series :
    Effect.fitProphet ⟨0.001, 0.01, 0.01, "additive"⟩ [(0, 10), (1, 11), (4, 12)] ∈
      page_run ⟨1, 5, Strategy.prophetChoice, Except.ok [(0, 10), (1, 11), (4, 12)],
        [0, 1, 2, 3, 4, 5, 6, 7, 8, 9], 30, 10, 7, fun _ _ => 0⟩ ∧
    ¬ DailyStep [(0, 10), (1, 11), (4, 12)] := by
  constructor
  · have htrace : page_run ⟨1, 5, Strategy.prophetChoice,
        Except.ok [(0, 10), (1, 11), (4, 12)],
        [0, 1, 2, 3, 4, 5, 6, 7, 8, 9], 30, 10, 7, fun _ _ => 0⟩ =
      [Effect.loadDataCalled,
       Effect.fitProphet ⟨0.001, 0.01, 0.01, "additive"⟩ [(0, 10), (1, 11), (4, 12)],
       Effect.stError "Please select a Company Name"] := rfl
    rw [htrace]
    exact List.mem_cons_of_mem _ (List.mem_cons_self _ _)
  · intro hds
    rw [DailyStep] at hds
    simp [List.chain'_cons] at hds
